import Mathlib

/-!
# helper/stats/cpu.go

A shallow embedding of the package `stats` (file `helper/stats/cpu.go`): the
package-level variables become the record `State`, the two calls into
`gopsutil/cpu` become the record `Platform` holding what each call returns,
and `Init` becomes a function from a platform and a state to the new state
and the returned error.

Go's `float64` is modelled by `F64`: not-a-number, the two infinities, and the
finite values as rationals, with the IEEE-754 binary64 rounding (to nearest,
ties to even) written out in `rnd`. The two zeros of binary64 are identified:
Go's `==` and `<=` do not tell them apart, and the file never divides.
-/

namespace Stats

/-! ## float64 -/

/-- A value of Go's `float64`. The finite binary64 values are the rationals
that `rnd` leaves fixed; `fin` takes any rational, so a statement about every
`fin q` covers every finite `float64`. -/
inductive F64 where
  | nan : F64
  | ninf : F64
  | fin (q : ℚ) : F64
  | pinf : F64
  deriving DecidableEq

/-- Round a rational to the nearest integer, ties to the even one. -/
def rne (x : ℚ) : ℤ :=
  if x - ⌊x⌋ < 1 / 2 then ⌊x⌋
  else if 1 / 2 < x - ⌊x⌋ then ⌊x⌋ + 1
  else if ⌊x⌋ % 2 = 0 then ⌊x⌋ else ⌊x⌋ + 1

/-- The binary exponent of the binade of a magnitude `a`, not below the
exponent `-1022` of the subnormal range. -/
def binade (a : ℚ) : ℤ := max (Int.log 2 a) (-1022)

/-- The spacing of binary64 values in the binade of `a` (53 significant bits). -/
def ulp (a : ℚ) : ℚ := 2 ^ (binade a - 52)

/-- The magnitude `a` rounded to a multiple of the spacing of its binade. -/
def rndMag (a : ℚ) : ℚ := (rne (a / ulp a) : ℚ) * ulp a

/-- IEEE-754 binary64 rounding of a rational: to nearest, ties to even, with
overflow to an infinity from `2 ^ 1024` on. -/
def rnd (q : ℚ) : F64 :=
  if 2 ^ 1024 ≤ rndMag |q| then (if q < 0 then F64.ninf else F64.pinf)
  else F64.fin (if q < 0 then -rndMag |q| else rndMag |q|)

namespace F64

/-- The conversion `float64(n)` of an integer. -/
def ofInt (n : Int) : F64 := rnd (n : ℚ)

/-- The function `math.Floor`: NaN and the infinities are returned unchanged. -/
def floor : F64 → F64
  | nan => nan
  | ninf => ninf
  | fin q => fin (⌊q⌋ : ℚ)
  | pinf => pinf

/-- The product `x * y` of two `float64` values. -/
def mul : F64 → F64 → F64
  | nan, _ => nan
  | _, nan => nan
  | fin a, fin b => rnd (a * b)
  | fin a, pinf => if a = 0 then nan else if 0 < a then pinf else ninf
  | fin a, ninf => if a = 0 then nan else if 0 < a then ninf else pinf
  | pinf, fin b => if b = 0 then nan else if 0 < b then pinf else ninf
  | ninf, fin b => if b = 0 then nan else if 0 < b then ninf else pinf
  | pinf, pinf => pinf
  | ninf, ninf => pinf
  | pinf, ninf => ninf
  | ninf, pinf => ninf

/-- The comparison `x <= y` of two `float64` values: false when either is NaN. -/
def le : F64 → F64 → Bool
  | nan, _ => false
  | _, nan => false
  | ninf, _ => true
  | _, pinf => true
  | fin a, fin b => decide (a ≤ b)
  | fin _, ninf => false
  | pinf, fin _ => false
  | pinf, ninf => false

end F64

/-! ## errors -/

/-- A Go `error`, identified with the text its `Error()` method returns. -/
abbrev GoError := String

/-- The call `fmt.Errorf(lead + "%v", err)`. -/
def errorf (lead : String) (err : GoError) : GoError := lead ++ err

/-- The type `multierror.Error`: a list of errors. -/
structure MultiError where
  Errors : List GoError
  deriving DecidableEq

/-- The call `multierror.Append(merrs, e)` for a plain error `e`; a nil
`merrs` is replaced by a fresh empty one first. -/
def multierrorAppend (merrs : Option MultiError) (e : GoError) : Option MultiError :=
  match merrs with
  | none => some { Errors := [e] }
  | some m => some { Errors := m.Errors ++ [e] }

/-- The method `(*multierror.Error).ErrorOrNil`. -/
def ErrorOrNil (merrs : Option MultiError) : Option MultiError :=
  match merrs with
  | none => none
  | some m => if m.Errors.length = 0 then none else some m

/-! ## the platform and the package state -/

/-- The fields of `cpu.InfoStat` that the package reads. -/
structure InfoStat where
  ModelName : String
  Mhz : F64
  deriving DecidableEq

/-- What the two platform queries return: `cpu.Counts(true)` an integer and an
error, `cpu.InfoWithContext(ctx)` a list of records and an error (a query that
runs into the 60 second deadline returns with a non-nil error). -/
structure Platform where
  countsVal : Int
  countsErr : Option GoError
  infoVal : List InfoStat
  infoErr : Option GoError

/-- A call into `gopsutil/cpu`. -/
inductive Query where
  | counts : Query
  | info : Query
  deriving DecidableEq

/-- The package-level variables, `onceLer` reduced to its done flag, and the
log of the platform queries made so far. -/
structure State where
  cpuMhzPerCore : F64
  cpuModelName : String
  cpuNumCores : Int
  cpuTotalTicks : F64
  initErr : Option MultiError
  onceLer : Bool
  queries : List Query
  deriving DecidableEq

/-- The state of a freshly started process: every variable at its zero value. -/
def State.zero : State :=
  { cpuMhzPerCore := F64.fin 0, cpuModelName := "", cpuNumCores := 0,
    cpuTotalTicks := F64.fin 0, initErr := none, onceLer := false, queries := [] }

/-- The text put before the cause of a failed core-count query. -/
def countsLead : String := "Unable to determine the number of CPU cores available: "

/-- The text put before the cause of a failed info query. -/
def infoLead : String := "Unable to obtain CPU information: "

/-- The function passed to `onceLer.Do` in `Init`. Both query results are
assigned whether or not the error is nil; the context and its `cancel` only
bound the time the info query may take and leave no trace in the state. -/
def initBody (p : Platform) (s : State) : State :=
  let merrs : Option MultiError := none
  let s := { s with cpuNumCores := p.countsVal, queries := s.queries ++ [Query.counts] }
  let merrs := match p.countsErr with
    | some err => multierrorAppend merrs (errorf countsLead err)
    | none => merrs
  let infoStats := p.infoVal
  let s := { s with queries := s.queries ++ [Query.info] }
  let merrs := match p.infoErr with
    | some err => multierrorAppend merrs (errorf infoLead err)
    | none => merrs
  let s := match infoStats with
    | r :: _ => { s with cpuModelName := r.ModelName, cpuMhzPerCore := r.Mhz }
    | [] => s
  let s := { s with cpuMhzPerCore := F64.floor s.cpuMhzPerCore }
  let s := { s with
    cpuTotalTicks := F64.floor (F64.mul (F64.ofInt s.cpuNumCores) s.cpuMhzPerCore) }
  let s := if F64.le s.cpuTotalTicks (F64.fin 0) then { s with cpuTotalTicks := F64.fin 1 } else s
  { s with initErr := ErrorOrNil merrs }

/-- The function `Init`: the body runs unless `onceLer` is done already. -/
def Init (p : Platform) (s : State) : State × Option MultiError :=
  let s := if s.onceLer then s else { initBody p s with onceLer := true }
  (s, s.initErr)

/-- The function `CPUNumCores` (its doc comment in the source opens with the
name `CPUModelName`; the body returns `cpuNumCores`). -/
def CPUNumCores (s : State) : Int := s.cpuNumCores

/-- The function `CPUMHzPerCore`. -/
def CPUMHzPerCore (s : State) : F64 := s.cpuMhzPerCore

/-- The function `CPUModelName`. -/
def CPUModelName (s : State) : String := s.cpuModelName

/-- The function `TotalTicksAvailable`. -/
def TotalTicksAvailable (s : State) : F64 := s.cpuTotalTicks

/-- The least value of Go's `int` on a 64-bit platform. -/
def minInt : Int := -2 ^ 63

/-- The greatest value of Go's `int` on a 64-bit platform. -/
def maxInt : Int := 2 ^ 63 - 1

/-- A caller that calls `Init` once for each element of a list, the platform
answering as the element says; the returned errors are collected in order. -/
def InitSeq : List Platform → State → State × List (Option MultiError)
  | [], s => (s, [])
  | p :: ps, s => ((InitSeq ps (Init p s).1).1, (Init p s).2 :: (InitSeq ps (Init p s).1).2)

/-! ## auxiliary functions of the proofs -/

/-- The clock speed `Init` works with: that of the first record, or the one
already in the state when there is no record. -/
def firstMhz (infoStats : List InfoStat) (old : F64) : F64 :=
  match infoStats with
  | r :: _ => r.Mhz
  | [] => old

/-- The total-ticks value `Init` computes from a core count and a clock speed. -/
def ticksOf (n : Int) (mhz : F64) : F64 :=
  if F64.le (F64.floor (F64.mul (F64.ofInt n) (F64.floor mhz))) (F64.fin 0) then F64.fin 1
  else F64.floor (F64.mul (F64.ofInt n) (F64.floor mhz))

/-! ## rounding to the nearest integer -/

theorem floor_le_rne (x : ℚ) : ⌊x⌋ ≤ rne x := by
  unfold rne
  split_ifs <;> omega

theorem rne_le_floor_add_one (x : ℚ) : rne x ≤ ⌊x⌋ + 1 := by
  unfold rne
  split_ifs <;> omega

theorem rne_intCast (z : ℤ) : rne (z : ℚ) = z := by
  unfold rne
  simp

theorem rne_mono {x y : ℚ} (h : x ≤ y) : rne x ≤ rne y := by
  rcases (Int.floor_mono h).lt_or_eq with hlt | heq
  · have h1 := rne_le_floor_add_one x
    have h2 := floor_le_rne y
    omega
  · unfold rne
    rw [heq]
    split_ifs <;> first | omega | (exfalso; linarith)

theorem rne_le_of_le_intCast {x : ℚ} {z : ℤ} (h : x ≤ z) : rne x ≤ z := by
  have := rne_mono h
  rwa [rne_intCast] at this

theorem le_rne_of_intCast_le {x : ℚ} {z : ℤ} (h : (z : ℚ) ≤ x) : z ≤ rne x := by
  have := rne_mono h
  rwa [rne_intCast] at this

/-! ## the binade and the rounding of a magnitude -/

theorem ulp_pos (a : ℚ) : 0 < ulp a := by
  unfold ulp
  positivity

theorem lt_two_zpow_binade_succ (a : ℚ) : a < 2 ^ (binade a + 1) := by
  have h := Int.lt_zpow_succ_log_self (b := 2) (by norm_num) a
  have hle : Int.log 2 a + 1 ≤ binade a + 1 := by
    unfold binade
    have := le_max_left (Int.log 2 a) (-1022)
    omega
  have h2 : (2 : ℚ) ^ (Int.log 2 a + 1) ≤ 2 ^ (binade a + 1) :=
    zpow_le_zpow_right₀ (by norm_num) hle
  push_cast at h
  exact lt_of_lt_of_le h h2

theorem two_zpow_binade_le {a : ℚ} (ha : 0 < a) (hn : -1022 ≤ Int.log 2 a) :
    2 ^ binade a ≤ a := by
  have h := Int.zpow_log_le_self (b := 2) (by norm_num) ha
  have hb : binade a = Int.log 2 a := by
    unfold binade
    exact max_eq_left hn
  rw [hb]
  push_cast at h
  exact h

theorem binade_mono {a b : ℚ} (ha : 0 < a) (h : a ≤ b) : binade a ≤ binade b := by
  unfold binade
  exact max_le_max (Int.log_mono_right ha h) le_rfl

theorem two_zpow_split (e : ℤ) : (2 : ℚ) ^ (e + 1) = 2 ^ (53 : ℤ) * 2 ^ (e - 52) := by
  rw [← zpow_add₀ (by norm_num : (2 : ℚ) ≠ 0)]
  congr 1
  omega

theorem two_zpow_split_low (e : ℤ) : (2 : ℚ) ^ e = 2 ^ (52 : ℤ) * 2 ^ (e - 52) := by
  rw [← zpow_add₀ (by norm_num : (2 : ℚ) ≠ 0)]
  congr 1
  omega

theorem rndMag_zero : rndMag 0 = 0 := by
  unfold rndMag
  simp [rne]

theorem rndMag_nonneg {a : ℚ} (ha : 0 ≤ a) : 0 ≤ rndMag a := by
  unfold rndMag
  have hu := ulp_pos a
  have h0 : ((0 : ℤ) : ℚ) ≤ a / ulp a := by
    simp only [Int.cast_zero]
    positivity
  have := le_rne_of_intCast_le h0
  have h1 : (0 : ℚ) ≤ (rne (a / ulp a) : ℚ) := by exact_mod_cast this
  positivity

theorem rndMag_le_two_zpow (a : ℚ) : rndMag a ≤ 2 ^ (binade a + 1) := by
  unfold rndMag
  have hu := ulp_pos a
  have hlt := lt_two_zpow_binade_succ a
  rw [two_zpow_split] at hlt ⊢
  have hq : a / ulp a ≤ ((2 ^ 53 : ℤ) : ℚ) := by
    rw [div_le_iff₀ hu]
    unfold ulp
    push_cast
    have : (2 : ℚ) ^ (53 : ℤ) = 2 ^ 53 := by norm_cast
    rw [this] at hlt
    exact hlt.le
  have := rne_le_of_le_intCast hq
  have h1 : (rne (a / ulp a) : ℚ) ≤ 2 ^ (53 : ℤ) := by
    have h2 : (rne (a / ulp a) : ℚ) ≤ ((2 ^ 53 : ℤ) : ℚ) := by exact_mod_cast this
    have h3 : (2 : ℚ) ^ (53 : ℤ) = ((2 ^ 53 : ℤ) : ℚ) := by norm_cast
    rw [h3]
    exact h2
  exact mul_le_mul_of_nonneg_right h1 hu.le

theorem two_zpow_le_rndMag {a : ℚ} (ha : 0 < a) (hn : -1022 ≤ Int.log 2 a) :
    2 ^ binade a ≤ rndMag a := by
  unfold rndMag
  have hu := ulp_pos a
  have hle := two_zpow_binade_le ha hn
  rw [two_zpow_split_low] at hle ⊢
  have hq : ((2 ^ 52 : ℤ) : ℚ) ≤ a / ulp a := by
    rw [le_div_iff₀ hu]
    unfold ulp
    push_cast
    have : (2 : ℚ) ^ (52 : ℤ) = 2 ^ 52 := by norm_cast
    rw [this] at hle
    exact hle
  have := le_rne_of_intCast_le hq
  have h1 : (2 : ℚ) ^ (52 : ℤ) ≤ (rne (a / ulp a) : ℚ) := by
    have h2 : ((2 ^ 52 : ℤ) : ℚ) ≤ (rne (a / ulp a) : ℚ) := by exact_mod_cast this
    have h3 : (2 : ℚ) ^ (52 : ℤ) = ((2 ^ 52 : ℤ) : ℚ) := by norm_cast
    rw [h3]
    exact h2
  exact mul_le_mul_of_nonneg_right h1 hu.le

theorem rndMag_mono {a b : ℚ} (ha : 0 ≤ a) (h : a ≤ b) : rndMag a ≤ rndMag b := by
  rcases ha.lt_or_eq with hpos | hz
  · rcases (binade_mono hpos h).lt_or_eq with hlt | heq
    · have hb : 0 < b := lt_of_lt_of_le hpos h
      have hlog : -1022 ≤ Int.log 2 b := by
        by_contra hc
        have : binade b = -1022 := by
          unfold binade
          exact max_eq_right (by omega)
        have h1 : -1022 ≤ binade a := by
          unfold binade
          exact le_max_right _ _
        omega
      have h1 := rndMag_le_two_zpow a
      have h2 := two_zpow_le_rndMag hb hlog
      have h3 : (2 : ℚ) ^ (binade a + 1) ≤ 2 ^ binade b :=
        zpow_le_zpow_right₀ (by norm_num) (by omega)
      linarith
    · unfold rndMag
      have hu : ulp a = ulp b := by
        unfold ulp
        rw [heq]
      rw [hu]
      have hub := ulp_pos b
      have hq : a / ulp b ≤ b / ulp b := div_le_div_of_nonneg_right h hub.le
      have := rne_mono hq
      have h1 : (rne (a / ulp b) : ℚ) ≤ (rne (b / ulp b) : ℚ) := by exact_mod_cast this
      exact mul_le_mul_of_nonneg_right h1 hub.le
  · rw [← hz, rndMag_zero]
    exact rndMag_nonneg (hz ▸ h)

theorem rndMag_exact {a : ℚ} {z : ℤ} (h : a / ulp a = z) : rndMag a = a := by
  unfold rndMag
  rw [h, rne_intCast, ← h]
  exact div_mul_cancel₀ a (ulp_pos a).ne.symm

theorem binade_eq {a : ℚ} {e : ℤ} (he : -1022 ≤ e) (h1 : 2 ^ e ≤ a) (h2 : a < 2 ^ (e + 1)) :
    binade a = e := by
  have ha : 0 < a := lt_of_lt_of_le (by positivity) h1
  have hl1 : e ≤ Int.log 2 a := by
    rw [← Int.zpow_le_iff_le_log (by norm_num) ha]
    push_cast
    exact h1
  have hl2 : Int.log 2 a < e + 1 := by
    rw [← Int.lt_zpow_iff_log_lt (by norm_num) ha]
    push_cast
    exact h2
  unfold binade
  rw [max_eq_left (by omega)]
  omega

theorem rndMag_exact_of_zpow {a : ℚ} (m k : ℤ) (ha : a = m * 2 ^ k)
    (hk : binade a - 52 ≤ k) : rndMag a = a := by
  have hz : a / ulp a = ((m * 2 ^ (k - (binade a - 52)).toNat : ℤ) : ℚ) := by
    unfold ulp
    rw [div_eq_iff (by positivity)]
    push_cast
    rw [mul_assoc, ← zpow_natCast, ← zpow_add₀ (by norm_num : (2 : ℚ) ≠ 0)]
    rw [Int.toNat_of_nonneg (by omega)]
    rw [ha]
    congr 2
    omega
  exact rndMag_exact hz

theorem rndMag_natCast {n : ℕ} (h : n ≤ 2 ^ 53) : rndMag (n : ℚ) = n := by
  rcases Nat.eq_zero_or_pos n with h0 | hpos
  · subst h0
    simpa using rndMag_zero
  · have hb : binade (n : ℚ) = Nat.log 2 n := by
      unfold binade
      rw [Int.log_natCast]
      exact max_eq_left (by omega)
    rcases h.lt_or_eq with hlt | heq
    · have hlog : Nat.log 2 n < 53 := Nat.log_lt_of_lt_pow (by omega) hlt
      apply rndMag_exact_of_zpow (n : ℤ) 0
      · simp
      · rw [hb]
        omega
    · subst heq
      apply rndMag_exact_of_zpow 1 53
      · norm_num
      · rw [hb, Nat.log_pow (by norm_num)]
        norm_num

theorem rndMag_two_pow_63 : rndMag (2 ^ 63 : ℚ) = 2 ^ 63 := by
  have hb : binade (2 ^ 63 : ℚ) = 63 := by
    apply binade_eq (by norm_num)
    · exact le_of_eq (by norm_cast)
    · have : (2 : ℚ) ^ ((63 : ℤ) + 1) = 2 ^ 64 := by norm_cast
      rw [this]
      norm_num
  apply rndMag_exact_of_zpow 1 63
  · norm_cast
  · rw [hb]
    norm_num

/-! ## the rounding to binary64 -/

theorem rnd_ne_nan (q : ℚ) : rnd q ≠ F64.nan := by
  unfold rnd
  split_ifs <;> simp

theorem rnd_of_nonneg {q : ℚ} (h : 0 ≤ q) :
    rnd q = if 2 ^ 1024 ≤ rndMag q then F64.pinf else F64.fin (rndMag q) := by
  unfold rnd
  rw [abs_of_nonneg h]
  simp [not_lt.mpr h]

theorem rnd_of_neg {q : ℚ} (h : q < 0) :
    rnd q = if 2 ^ 1024 ≤ rndMag (-q) then F64.ninf else F64.fin (-rndMag (-q)) := by
  unfold rnd
  rw [abs_of_neg h]
  simp [h]

theorem rnd_natCast {n : ℕ} (h : n ≤ 2 ^ 53) : rnd (n : ℚ) = F64.fin n := by
  have hsmall : ¬ ((2 : ℚ) ^ 1024 ≤ (n : ℚ)) := by
    have : (n : ℚ) ≤ 2 ^ 53 := by exact_mod_cast h
    have h2 : (2 : ℚ) ^ 53 < 2 ^ 1024 := by norm_num
    linarith
  rw [rnd_of_nonneg (Nat.cast_nonneg n), rndMag_natCast h, if_neg hsmall]

theorem rnd_neg_natCast {n : ℕ} (h : n ≤ 2 ^ 53) : rnd (-(n : ℚ)) = F64.fin (-(n : ℚ)) := by
  rcases Nat.eq_zero_or_pos n with h0 | hpos
  · subst h0
    simpa using rnd_natCast (n := 0) (by norm_num)
  · have hsmall : ¬ ((2 : ℚ) ^ 1024 ≤ (n : ℚ)) := by
      have : (n : ℚ) ≤ 2 ^ 53 := by exact_mod_cast h
      have h2 : (2 : ℚ) ^ 53 < 2 ^ 1024 := by norm_num
      linarith
    have hq : -(n : ℚ) < 0 := by
      have : (0 : ℚ) < n := by exact_mod_cast hpos
      linarith
    rw [rnd_of_neg hq, neg_neg, rndMag_natCast h, if_neg hsmall]

theorem rnd_intCast {z : ℤ} (h : |z| ≤ 2 ^ 53) : rnd (z : ℚ) = F64.fin z := by
  obtain ⟨n, rfl | rfl⟩ := Int.eq_nat_or_neg z
  · have hn : n ≤ 2 ^ 53 := by
      rw [abs_of_nonneg (Int.natCast_nonneg n)] at h
      exact_mod_cast h
    simpa using rnd_natCast hn
  · have hn : n ≤ 2 ^ 53 := by
      rw [abs_neg, abs_of_nonneg (Int.natCast_nonneg n)] at h
      exact_mod_cast h
    simpa using rnd_neg_natCast hn

theorem rndMag_lt_overflow {a : ℚ} (h0 : 0 ≤ a) (h : a ≤ 2 ^ 63) :
    ¬ ((2 : ℚ) ^ 1024 ≤ rndMag a) := by
  have h1 := rndMag_mono h0 h
  rw [rndMag_two_pow_63] at h1
  have h2 : (2 : ℚ) ^ 63 < 2 ^ 1024 := by norm_num
  linarith

theorem rndMag_one : rndMag 1 = 1 := by
  simpa using rndMag_natCast (n := 1) (by norm_num)

theorem rndMag_pos {a : ℚ} (h : 1 ≤ a) : 0 < rndMag a := by
  have h1 := rndMag_mono (by norm_num) h
  rw [rndMag_one] at h1
  linarith

theorem int_range_abs {n : ℤ} (h1 : minInt ≤ n) (h2 : n ≤ maxInt) : |(n : ℚ)| ≤ 2 ^ 63 := by
  unfold minInt at h1
  unfold maxInt at h2
  rw [abs_le]
  constructor
  · have : ((-2 ^ 63 : ℤ) : ℚ) ≤ (n : ℚ) := by exact_mod_cast h1
    push_cast at this
    exact this
  · have : (n : ℚ) ≤ ((2 ^ 63 - 1 : ℤ) : ℚ) := by exact_mod_cast h2
    push_cast at this
    linarith

/-- The conversion of a Go `int` to `float64` is finite, and zero only at zero. -/
theorem ofInt_fin {n : ℤ} (h1 : minInt ≤ n) (h2 : n ≤ maxInt) :
    ∃ a : ℚ, F64.ofInt n = F64.fin a ∧ (a = 0 ↔ n = 0) ∧ (0 ≤ n → a = rndMag n) := by
  have habs := int_range_abs h1 h2
  have hov := rndMag_lt_overflow (abs_nonneg _) habs
  unfold F64.ofInt rnd
  rw [if_neg hov]
  refine ⟨_, rfl, ?_, ?_⟩
  · rcases lt_trichotomy n 0 with hneg | hz | hpos
    · have hq : (n : ℚ) < 0 := by exact_mod_cast hneg
      have h1a : (1 : ℚ) ≤ |(n : ℚ)| := by
        rw [abs_of_neg hq]
        have : (1 : ℤ) ≤ -n := by omega
        have : ((1 : ℤ) : ℚ) ≤ ((-n : ℤ) : ℚ) := by exact_mod_cast this
        push_cast at this
        exact this
      have := rndMag_pos h1a
      rw [if_pos hq]
      constructor
      · intro h
        linarith
      · intro h
        omega
    · subst hz
      simp [rndMag_zero]
    · have hq : ¬ ((n : ℚ) < 0) := by
        have : (0 : ℚ) < n := by exact_mod_cast hpos
        linarith
      have h1a : (1 : ℚ) ≤ |(n : ℚ)| := by
        rw [abs_of_nonneg (by linarith)]
        have : (1 : ℤ) ≤ n := by omega
        exact_mod_cast this
      have := rndMag_pos h1a
      rw [if_neg hq]
      constructor
      · intro h
        linarith
      · intro h
        omega
  · intro hn
    have hq : (0 : ℚ) ≤ n := by exact_mod_cast hn
    rw [if_neg (not_lt.mpr hq), abs_of_nonneg hq]

namespace F64

theorem mul_nan (x : F64) : mul x nan = nan := by
  cases x <;> rfl

theorem le_refl_pinf : le pinf pinf = true := rfl

theorem floor_le_floor {x y : F64} (h : le x y = true) : le (floor x) (floor y) = true := by
  cases x <;> cases y <;> simp_all [le, floor]
  exact_mod_cast Int.floor_mono h

end F64

theorem rnd_le_rnd {a b : ℚ} (h0 : 0 ≤ a) (h : a ≤ b) : F64.le (rnd a) (rnd b) = true := by
  have hm := rndMag_mono h0 h
  rw [rnd_of_nonneg h0, rnd_of_nonneg (le_trans h0 h)]
  split_ifs with h1 h2 h2
  · rfl
  · exact absurd (le_trans h1 hm) h2
  · rfl
  · simpa [F64.le] using hm

/-! ## what `Init` leaves in the state -/

theorem Init_fst {p : Platform} {s : State} (h : s.onceLer = false) :
    (Init p s).1 = { initBody p s with onceLer := true } := by
  simp [Init, h]

theorem Init_snd {p : Platform} {s : State} (h : s.onceLer = false) :
    (Init p s).2 = (initBody p s).initErr := by
  simp [Init, h]

theorem Init_done {p : Platform} {s : State} (h : s.onceLer = true) :
    Init p s = (s, s.initErr) := by
  simp [Init, h]

theorem initBody_ticks (p : Platform) (s : State) :
    (initBody p s).cpuTotalTicks = ticksOf p.countsVal (firstMhz p.infoVal s.cpuMhzPerCore) := by
  unfold initBody ticksOf firstMhz
  cases p.infoVal <;> simp only [] <;> split_ifs <;> simp_all

theorem initBody_mhz (p : Platform) (s : State) :
    (initBody p s).cpuMhzPerCore = F64.floor (firstMhz p.infoVal s.cpuMhzPerCore) := by
  unfold initBody firstMhz
  cases p.infoVal <;> simp only [] <;> split_ifs <;> simp_all

theorem initBody_numCores (p : Platform) (s : State) :
    (initBody p s).cpuNumCores = p.countsVal := by
  unfold initBody
  cases p.infoVal <;> simp only [] <;> split_ifs <;> simp_all

theorem one_le_cap_floor {t : F64} (ht : t ≠ F64.nan) :
    F64.le (F64.fin 1)
      (if F64.le (F64.floor t) (F64.fin 0) then F64.fin 1 else F64.floor t) = true := by
  cases t with
  | nan => exact absurd rfl ht
  | ninf => simp [F64.floor, F64.le]
  | pinf => simp [F64.floor, F64.le]
  | fin c =>
    simp only [F64.floor, F64.le]
    split_ifs with h
    · simp
    · simp only [decide_eq_true_eq, not_le] at h ⊢
      have h1 : (0 : ℤ) < ⌊c⌋ := by exact_mod_cast h
      have h2 : (1 : ℤ) ≤ ⌊c⌋ := by omega
      exact_mod_cast h2

theorem mul_fin_ne_nan {a : ℚ} {y : F64} (hy : y ≠ F64.nan)
    (hinf : a = 0 → y ≠ F64.pinf ∧ y ≠ F64.ninf) : F64.mul (F64.fin a) y ≠ F64.nan := by
  cases y with
  | nan => exact absurd rfl hy
  | fin b => exact rnd_ne_nan _
  | pinf =>
    have ha : a ≠ 0 := fun h => (hinf h).1 rfl
    simp only [F64.mul, if_neg ha]
    split_ifs <;> simp
  | ninf =>
    have ha : a ≠ 0 := fun h => (hinf h).2 rfl
    simp only [F64.mul, if_neg ha]
    split_ifs <;> simp

theorem floor_ne_nan {y : F64} (hy : y ≠ F64.nan) : F64.floor y ≠ F64.nan := by
  cases y <;> simp_all [F64.floor]

theorem floor_eq_pinf {y : F64} : F64.floor y = F64.pinf ↔ y = F64.pinf := by
  cases y <;> simp [F64.floor]

theorem floor_eq_ninf {y : F64} : F64.floor y = F64.ninf ↔ y = F64.ninf := by
  cases y <;> simp [F64.floor]

theorem one_le_ticksOf {n : ℤ} {mhz : F64} (h1 : minInt ≤ n) (h2 : n ≤ maxInt)
    (hy : mhz ≠ F64.nan) (hinf : n = 0 → mhz ≠ F64.pinf ∧ mhz ≠ F64.ninf) :
    F64.le (F64.fin 1) (ticksOf n mhz) = true := by
  obtain ⟨a, ha, hz, -⟩ := ofInt_fin h1 h2
  unfold ticksOf
  rw [ha]
  apply one_le_cap_floor
  apply mul_fin_ne_nan (floor_ne_nan hy)
  intro h0
  have := hinf (hz.mp h0)
  rw [Ne, Ne, floor_eq_pinf, floor_eq_ninf]
  exact this

theorem cap_mono {u v : F64} (h : F64.le u v = true)
    (hv : F64.le (F64.fin 1) (if F64.le v (F64.fin 0) then F64.fin 1 else v) = true) :
    F64.le (if F64.le u (F64.fin 0) then F64.fin 1 else u)
      (if F64.le v (F64.fin 0) then F64.fin 1 else v) = true := by
  by_cases hu : F64.le u (F64.fin 0) = true
  · rw [if_pos hu]
    exact hv
  · rw [if_neg hu]
    have hv0 : ¬ (F64.le v (F64.fin 0) = true) := by
      cases u <;> cases v <;> simp_all [F64.le]
      linarith
    rw [if_neg hv0]
    exact h

theorem ticksOf_mono {n1 n2 : ℤ} {m1 m2 : ℚ} (hn0 : 0 ≤ n1) (hn : n1 ≤ n2)
    (hmax : n2 ≤ maxInt) (hm0 : 0 ≤ m1) (hm : m1 ≤ m2) :
    F64.le (ticksOf n1 (F64.fin m1)) (ticksOf n2 (F64.fin m2)) = true := by
  have hmin : ∀ n : ℤ, 0 ≤ n → minInt ≤ n := by
    intro n h
    unfold minInt
    omega
  obtain ⟨a1, ha1, -, hr1⟩ := ofInt_fin (hmin n1 hn0) (le_trans hn hmax)
  obtain ⟨a2, ha2, -, hr2⟩ := ofInt_fin (hmin n2 (le_trans hn0 hn)) hmax
  have hq1 : (0 : ℚ) ≤ n1 := by exact_mod_cast hn0
  have hq : (n1 : ℚ) ≤ n2 := by exact_mod_cast hn
  have e1 := hr1 hn0
  have e2 := hr2 (le_trans hn0 hn)
  have ha : a1 ≤ a2 := by
    rw [e1, e2]
    exact rndMag_mono hq1 hq
  have ha0 : 0 ≤ a1 := by
    rw [e1]
    exact rndMag_nonneg hq1
  have hb0 : (0 : ℚ) ≤ (⌊m1⌋ : ℚ) := by exact_mod_cast Int.floor_nonneg.mpr hm0
  have hb : ((⌊m1⌋ : ℤ) : ℚ) ≤ (⌊m2⌋ : ℚ) := by exact_mod_cast Int.floor_mono hm
  have hp0 : 0 ≤ a1 * (⌊m1⌋ : ℚ) := mul_nonneg ha0 hb0
  have hp : a1 * (⌊m1⌋ : ℚ) ≤ a2 * (⌊m2⌋ : ℚ) :=
    mul_le_mul ha hb hb0 (le_trans ha0 ha)
  unfold ticksOf
  rw [ha1, ha2]
  simp only [F64.floor, F64.mul]
  apply cap_mono (F64.floor_le_floor (rnd_le_rnd hp0 hp))
  exact one_le_cap_floor (rnd_ne_nan _)

theorem rnd_counter : rnd (27021597764222982 : ℚ) = F64.fin 27021597764222984 := by
  have hb : binade (27021597764222982 : ℚ) = 54 := by
    apply binade_eq (by norm_num)
    · have : (2 : ℚ) ^ (54 : ℤ) = 2 ^ 54 := by norm_cast
      rw [this]
      norm_num
    · have : (2 : ℚ) ^ ((54 : ℤ) + 1) = 2 ^ 55 := by norm_cast
      rw [this]
      norm_num
  have hu : ulp (27021597764222982 : ℚ) = 4 := by
    unfold ulp
    rw [hb]
    norm_num
  have hf : ⌊(27021597764222982 : ℚ) / 4⌋ = 6755399441055745 := by
    rw [Int.floor_eq_iff]
    constructor <;> norm_num
  have hm : rndMag (27021597764222982 : ℚ) = 27021597764222984 := by
    unfold rndMag
    rw [hu]
    unfold rne
    rw [hf]
    norm_num
  rw [rnd_of_nonneg (by norm_num), hm]
  norm_num

theorem Init_ticks_cons (n : ℤ) (ce ie : Option GoError) (name : String) (mhz : F64)
    (rest : List InfoStat) (s : State) (hs : s.onceLer = false) :
    TotalTicksAvailable (Init ⟨n, ce, ⟨name, mhz⟩ :: rest, ie⟩ s).1 = ticksOf n mhz := by
  rw [Init_fst hs]
  simp only [TotalTicksAvailable, initBody_ticks, firstMhz]

theorem Init_numCores (n : ℤ) (ce ie : Option GoError) (recs : List InfoStat) (s : State)
    (hs : s.onceLer = false) : CPUNumCores (Init ⟨n, ce, recs, ie⟩ s).1 = n := by
  rw [Init_fst hs]
  simp only [CPUNumCores, initBody_numCores]

theorem ticksOf_nan (n : ℤ) : ticksOf n F64.nan = F64.nan := by
  simp [ticksOf, F64.floor, F64.mul_nan, F64.le]

theorem ticksOf_fin {n : ℤ} {m a c : ℚ} (ha : F64.ofInt n = F64.fin a)
    (hc : rnd (a * (⌊m⌋ : ℚ)) = F64.fin c) :
    ticksOf n (F64.fin m) =
      if ((⌊c⌋ : ℤ) : ℚ) ≤ 0 then F64.fin 1 else F64.fin ((⌊c⌋ : ℤ) : ℚ) := by
  unfold ticksOf
  rw [ha]
  simp only [F64.floor, F64.mul]
  rw [hc]
  simp only [F64.floor, F64.le, decide_eq_true_eq]

theorem ticksOf_zero_clock {n : ℤ} (h1 : minInt ≤ n) (h2 : n ≤ maxInt) :
    ticksOf n (F64.fin 0) = F64.fin 1 := by
  obtain ⟨a, ha, -, -⟩ := ofInt_fin h1 h2
  have hc : rnd (a * ((⌊(0 : ℚ)⌋ : ℤ) : ℚ)) = F64.fin 0 := by
    rw [Int.floor_zero, Int.cast_zero, mul_zero]
    simpa using rnd_natCast (n := 0) (by norm_num)
  rw [ticksOf_fin ha hc, Int.floor_zero, Int.cast_zero, if_pos le_rfl]

theorem le_one_nan : F64.le (F64.fin 1) F64.nan = false := rfl

theorem le_one_one : F64.le (F64.fin 1) (F64.fin 1) = true := by
  simp [F64.le]

/-! ## the claims -/

/-- C1, counterexample: with 4 cores and a first record whose clock speed is
NaN, `TotalTicksAvailable()` after `Init` is NaN, and `1 <= NaN` is false. -/
theorem C1_counterexample :
    TotalTicksAvailable
        (Init ⟨4, none, [⟨"Virtual CPU", F64.nan⟩], none⟩ State.zero).1 = F64.nan ∧
      F64.le (F64.fin 1) (TotalTicksAvailable
        (Init ⟨4, none, [⟨"Virtual CPU", F64.nan⟩], none⟩ State.zero).1) = false := by
  have h := (Init_ticks_cons 4 none none "Virtual CPU" F64.nan [] State.zero rfl).trans
    (ticksOf_nan 4)
  rw [h]
  exact ⟨rfl, le_one_nan⟩

/-- C1, amended: after `Init` in a fresh process, `TotalTicksAvailable() >= 1`
for every core count (a Go `int`, with or without an error) and every list of
info records (empty or not, with or without an error) whose first record, if
there is one, has a clock speed that is not NaN and, when the core count is 0,
not infinite. -/
theorem C1_total_ticks_ge_one (p : Platform)
    (h1 : minInt ≤ p.countsVal) (h2 : p.countsVal ≤ maxInt)
    (hclock : ∀ r rest, p.infoVal = r :: rest →
      r.Mhz ≠ F64.nan ∧ (p.countsVal = 0 → r.Mhz ≠ F64.pinf ∧ r.Mhz ≠ F64.ninf)) :
    F64.le (F64.fin 1) (TotalTicksAvailable (Init p State.zero).1) = true := by
  rw [Init_fst rfl]
  simp only [TotalTicksAvailable, initBody_ticks]
  apply one_le_ticksOf h1 h2
  · cases hl : p.infoVal with
    | nil => simp [firstMhz, State.zero]
    | cons r rest => exact (hclock r rest hl).1
  · intro h0
    cases hl : p.infoVal with
    | nil => simp [firstMhz, State.zero]
    | cons r rest => exact (hclock r rest hl).2 h0

/-- C1, witness: 4 cores and the record `Virtual CPU` with 0 MHz give 1. -/
theorem C1_witness :
    TotalTicksAvailable
        (Init ⟨4, none, [⟨"Virtual CPU", F64.fin 0⟩], none⟩ State.zero).1 = F64.fin 1 ∧
      F64.le (F64.fin 1) (TotalTicksAvailable
        (Init ⟨4, none, [⟨"Virtual CPU", F64.fin 0⟩], none⟩ State.zero).1) = true :=
  ⟨(Init_ticks_cons 4 none none "Virtual CPU" (F64.fin 0) [] State.zero rfl).trans
      (ticksOf_zero_clock (by simp [minInt]) (by simp [maxInt])),
   C1_total_ticks_ge_one ⟨4, none, [⟨"Virtual CPU", F64.fin 0⟩], none⟩
    (by simp [minInt]) (by simp [maxInt])
    (by
      intro r rest hl
      have hr : r = ⟨"Virtual CPU", F64.fin 0⟩ := (List.cons.inj hl).1.symm
      rw [hr]
      exact ⟨by simp, fun _ => ⟨by simp, by simp⟩⟩)⟩

theorem ofInt_three : F64.ofInt 3 = F64.fin 3 := by
  simpa [F64.ofInt] using rnd_intCast (z := 3) (by norm_num)

theorem floor_counter_clock : ⌊(2 ^ 53 + 2 : ℚ)⌋ = 9007199254740994 := by
  rw [Int.floor_eq_iff]
  constructor <;> norm_num

theorem floor_counter_ticks : ⌊(27021597764222984 : ℚ)⌋ = 27021597764222984 := by
  rw [Int.floor_eq_iff]
  constructor <;> norm_num

theorem ticksOf_counter :
    ticksOf 3 (F64.fin (2 ^ 53 + 2)) = F64.fin 27021597764222984 := by
  have hc : rnd (3 * ((⌊(2 ^ 53 + 2 : ℚ)⌋ : ℤ) : ℚ)) = F64.fin 27021597764222984 := by
    rw [floor_counter_clock]
    have hprod : (3 : ℚ) * ((9007199254740994 : ℤ) : ℚ) = 27021597764222982 := by norm_num
    rw [hprod]
    exact rnd_counter
  rw [ticksOf_fin ofInt_three hc, floor_counter_ticks]
  rw [if_neg (by norm_num)]
  norm_num

theorem rnd_counter_clock : rnd (2 ^ 53 + 2) = F64.fin (2 ^ 53 + 2) := by
  have hb : binade (2 ^ 53 + 2 : ℚ) = 53 := by
    apply binade_eq (by norm_num)
    · have : (2 : ℚ) ^ (53 : ℤ) = 2 ^ 53 := by norm_cast
      rw [this]
      norm_num
    · have : (2 : ℚ) ^ ((53 : ℤ) + 1) = 2 ^ 54 := by norm_cast
      rw [this]
      norm_num
  have hm : rndMag (2 ^ 53 + 2 : ℚ) = 2 ^ 53 + 2 := by
    apply rndMag_exact_of_zpow (2 ^ 52 + 1) 1
    · norm_num
    · rw [hb]
      norm_num
  rw [rnd_of_nonneg (by norm_num), hm]
  norm_num

/-- C2, counterexample: 3 cores and a first record with the clock speed
`2 ^ 53 + 2` (a `float64` value). The claimed value is `3 * (2 ^ 53 + 2)`, which
is 27021597764222982 and positive; `Init` caches the product rounded to
`float64`, which is 27021597764222984. -/
theorem C2_counterexample :
    rnd (2 ^ 53 + 2) = F64.fin (2 ^ 53 + 2) ∧
      ⌊((3 : ℤ) : ℚ) * ⌊(2 ^ 53 + 2 : ℚ)⌋⌋ = 27021597764222982 ∧
      TotalTicksAvailable
        (Init ⟨3, none, [⟨"Example CPU", F64.fin (2 ^ 53 + 2)⟩], none⟩ State.zero).1 =
        F64.fin 27021597764222984 ∧
      TotalTicksAvailable
        (Init ⟨3, none, [⟨"Example CPU", F64.fin (2 ^ 53 + 2)⟩], none⟩ State.zero).1 ≠
        F64.fin (⌊((3 : ℤ) : ℚ) * ⌊(2 ^ 53 + 2 : ℚ)⌋⌋ : ℚ) := by
  have hfl2 : ⌊((3 : ℤ) : ℚ) * ((9007199254740994 : ℤ) : ℚ)⌋ = 27021597764222982 := by
    rw [Int.floor_eq_iff]
    constructor <;> norm_num
  have hval := (Init_ticks_cons 3 none none "Example CPU" (F64.fin (2 ^ 53 + 2)) []
    State.zero rfl).trans ticksOf_counter
  refine ⟨rnd_counter_clock, ?_, hval, ?_⟩
  · rw [floor_counter_clock, hfl2]
  · rw [hval, floor_counter_clock, hfl2]
    norm_num

/-- C2, amended: for every core count `n` (a Go `int`) and every clock speed
`mhz` of the first info record for which `n * floor(mhz)` is at most `2 ^ 53` in
absolute value (so that the `float64` product is exact), after `Init`
`TotalTicksAvailable()` equals `floor(n * floor(mhz))` when that value is
positive and 1 otherwise. -/
theorem C2_total_ticks_value (n : ℤ) (mhz : ℚ) (name : String) (rest : List InfoStat)
    (ce ie : Option GoError) (s : State) (hs : s.onceLer = false)
    (h1 : minInt ≤ n) (h2 : n ≤ maxInt) (hp : |n * ⌊mhz⌋| ≤ 2 ^ 53) :
    TotalTicksAvailable (Init ⟨n, ce, ⟨name, F64.fin mhz⟩ :: rest, ie⟩ s).1 =
      if 0 < ⌊(n : ℚ) * ⌊mhz⌋⌋ then F64.fin (⌊(n : ℚ) * ⌊mhz⌋⌋ : ℚ) else F64.fin 1 := by
  rw [Init_fst hs]
  simp only [TotalTicksAvailable, initBody_ticks, firstMhz, ticksOf, F64.floor]
  obtain ⟨a, ha, hz, -⟩ := ofInt_fin h1 h2
  have hprod : a * (⌊mhz⌋ : ℚ) = ((n * ⌊mhz⌋ : ℤ) : ℚ) := by
    by_cases hf : ⌊mhz⌋ = 0
    · rw [hf]
      simp
    · have hn : |n| ≤ 2 ^ 53 := by
        have h1f : 1 ≤ |⌊mhz⌋| := Int.one_le_abs hf
        have : |n| * 1 ≤ |n| * |⌊mhz⌋| := mul_le_mul_of_nonneg_left h1f (abs_nonneg n)
        rw [← abs_mul, mul_one] at this
        exact le_trans this hp
      have := rnd_intCast hn
      unfold F64.ofInt at ha
      rw [this] at ha
      have hna : (n : ℚ) = a := by simpa using ha
      rw [← hna]
      push_cast
      rfl
  have hfl : ⌊(n : ℚ) * (⌊mhz⌋ : ℚ)⌋ = n * ⌊mhz⌋ := by
    have : (n : ℚ) * (⌊mhz⌋ : ℚ) = ((n * ⌊mhz⌋ : ℤ) : ℚ) := by push_cast; rfl
    rw [this, Int.floor_intCast]
  rw [ha]
  simp only [F64.mul]
  rw [hprod, rnd_intCast hp, hfl]
  generalize n * ⌊mhz⌋ = z
  simp only [F64.floor, Int.floor_intCast, F64.le]
  by_cases hpos : 0 < z
  · have hq : ¬ ((z : ℚ) ≤ 0) := by
      have : (0 : ℚ) < (z : ℚ) := by exact_mod_cast hpos
      linarith
    simp [hpos, hq]
  · have hq : (z : ℚ) ≤ 0 := by
      have : z ≤ 0 := by omega
      exact_mod_cast this
    simp [hpos, hq]

/-- C2, witness: 8 cores and the record `Example CPU` with 2399.7 MHz give
19192. -/
theorem C2_witness :
    TotalTicksAvailable
      (Init ⟨8, none, [⟨"Example CPU", F64.fin (23997 / 10)⟩], none⟩ State.zero).1 =
      F64.fin 19192 := by
  have hfl : ⌊(23997 / 10 : ℚ)⌋ = 2399 := by
    rw [Int.floor_eq_iff]
    constructor <;> norm_num
  have h := C2_total_ticks_value 8 (23997 / 10) "Example CPU" [] none none State.zero rfl
    (by simp [minInt]) (by simp [maxInt]) (by rw [hfl]; norm_num)
  rw [h, hfl]
  have hfl2 : ⌊((8 : ℤ) : ℚ) * ((2399 : ℤ) : ℚ)⌋ = 19192 := by
    rw [Int.floor_eq_iff]
    constructor <;> norm_num
  rw [hfl2]
  norm_num

theorem Init_cons (n : ℤ) (ce ie : Option GoError) (r : InfoStat)
    (rest rest2 : List InfoStat) (s : State) (hs : s.onceLer = false) :
    CPUModelName (Init ⟨n, ce, r :: rest, ie⟩ s).1 = r.ModelName ∧
      CPUMHzPerCore (Init ⟨n, ce, r :: rest, ie⟩ s).1 = F64.floor r.Mhz ∧
      Init ⟨n, ce, r :: rest, ie⟩ s = Init ⟨n, ce, r :: rest2, ie⟩ s := by
  refine ⟨?_, ?_, ?_⟩
  · rw [Init_fst hs]
    simp only [CPUModelName, initBody]
    split_ifs <;> rfl
  · rw [Init_fst hs]
    simp only [CPUMHzPerCore, initBody_mhz, firstMhz]
  · simp only [Init, initBody]

/-- C3: for every non-empty list of info records and every outcome of the
core-count query, after `Init` `CPUModelName()` is the model name of the first
record and `CPUMHzPerCore()` the floor of its clock speed: for a finite clock
speed `q` the greatest integer not above `q`, and for NaN and the infinities
(which `math.Floor` returns unchanged) the clock speed itself. The records
after the first change neither the resulting state nor the returned error. -/
theorem C3_first_record (n : ℤ) (ce ie : Option GoError) (r : InfoStat)
    (rest rest2 : List InfoStat) (s : State) (hs : s.onceLer = false) :
    CPUModelName (Init ⟨n, ce, r :: rest, ie⟩ s).1 = r.ModelName ∧
      (∀ q : ℚ, r.Mhz = F64.fin q →
        CPUMHzPerCore (Init ⟨n, ce, r :: rest, ie⟩ s).1 = F64.fin ((⌊q⌋ : ℤ) : ℚ)) ∧
      (r.Mhz = F64.nan →
        CPUMHzPerCore (Init ⟨n, ce, r :: rest, ie⟩ s).1 = F64.nan) ∧
      (r.Mhz = F64.pinf →
        CPUMHzPerCore (Init ⟨n, ce, r :: rest, ie⟩ s).1 = F64.pinf) ∧
      (r.Mhz = F64.ninf →
        CPUMHzPerCore (Init ⟨n, ce, r :: rest, ie⟩ s).1 = F64.ninf) ∧
      Init ⟨n, ce, r :: rest, ie⟩ s = Init ⟨n, ce, r :: rest2, ie⟩ s := by
  have h := Init_cons n ce ie r rest rest2 s hs
  refine ⟨h.1, ?_, ?_, ?_, ?_, h.2.2⟩
  · intro q hq
    rw [h.2.1, hq]
    rfl
  · intro hq
    rw [h.2.1, hq]
    rfl
  · intro hq
    rw [h.2.1, hq]
    rfl
  · intro hq
    rw [h.2.1, hq]
    rfl

theorem floor_example_clock : ⌊(23997 / 10 : ℚ)⌋ = 2399 := by
  rw [Int.floor_eq_iff]
  constructor <;> norm_num

theorem fin_floor_example_clock :
    F64.fin ((⌊(23997 / 10 : ℚ)⌋ : ℤ) : ℚ) = F64.fin 2399 := by
  rw [floor_example_clock]
  norm_num

/-- C3, witness: two records and a failed core-count query; the first record
`Example CPU` with 2399.7 MHz is the one cached, as `Example CPU` and 2399, and
the second record changes nothing. -/
theorem C3_witness :
    CPUModelName (Init ⟨0, some "no cores", [⟨"Example CPU", F64.fin (23997 / 10)⟩,
        ⟨"Other CPU", F64.fin 1000⟩], none⟩ State.zero).1 = "Example CPU" ∧
      CPUMHzPerCore (Init ⟨0, some "no cores", [⟨"Example CPU", F64.fin (23997 / 10)⟩,
        ⟨"Other CPU", F64.fin 1000⟩], none⟩ State.zero).1 = F64.fin 2399 ∧
      Init ⟨0, some "no cores", [⟨"Example CPU", F64.fin (23997 / 10)⟩,
        ⟨"Other CPU", F64.fin 1000⟩], none⟩ State.zero =
        Init ⟨0, some "no cores", [⟨"Example CPU", F64.fin (23997 / 10)⟩], none⟩
          State.zero :=
  ⟨(C3_first_record 0 (some "no cores") none ⟨"Example CPU", F64.fin (23997 / 10)⟩
      [⟨"Other CPU", F64.fin 1000⟩] [] State.zero rfl).1,
   ((C3_first_record 0 (some "no cores") none ⟨"Example CPU", F64.fin (23997 / 10)⟩
      [⟨"Other CPU", F64.fin 1000⟩] [] State.zero rfl).2.1 (23997 / 10) rfl).trans
      fin_floor_example_clock,
   (C3_first_record 0 (some "no cores") none ⟨"Example CPU", F64.fin (23997 / 10)⟩
      [⟨"Other CPU", F64.fin 1000⟩] [] State.zero rfl).2.2.2.2.2⟩

theorem initBody_initErr (p : Platform) (s : State) :
    (initBody p s).initErr =
      ErrorOrNil ((match p.infoErr with
        | some err => multierrorAppend
            (match p.countsErr with
              | some err => multierrorAppend none (errorf countsLead err)
              | none => none) (errorf infoLead err)
        | none => (match p.countsErr with
              | some err => multierrorAppend none (errorf countsLead err)
              | none => none))) := by
  unfold initBody
  cases p.infoVal <;> simp only []

/-- C4: the error `Init` returns is nil exactly when neither query failed;
when a query failed it is the aggregate whose sub-errors are the core-count
error, if that query failed, followed by the CPU-info error, if that query
failed. -/
theorem C4_returned_error (p : Platform) (s : State) (hs : s.onceLer = false) :
    ((Init p s).2 = none ↔ p.countsErr = none ∧ p.infoErr = none) ∧
      (¬ (p.countsErr = none ∧ p.infoErr = none) →
        (Init p s).2 = some
          { Errors := (p.countsErr.map (errorf countsLead)).toList ++
              (p.infoErr.map (errorf infoLead)).toList }) := by
  rw [Init_snd hs, initBody_initErr]
  cases hc : p.countsErr <;> cases hi : p.infoErr <;>
    simp [ErrorOrNil, multierrorAppend]

/-- C4, witness: both queries fail; the aggregate holds the core-count error
and then the CPU-info error. -/
theorem C4_witness :
    (Init ⟨0, some "a", [], some "b"⟩ State.zero).2 =
      some { Errors := [errorf countsLead "a", errorf infoLead "b"] } :=
  (C4_returned_error ⟨0, some "a", [], some "b"⟩ State.zero rfl).2 (by simp)

theorem InitSeq_done (ps : List Platform) (s : State) (h : s.onceLer = true) :
    InitSeq ps s = (s, List.replicate ps.length s.initErr) := by
  induction ps with
  | nil => rfl
  | cons p ps ih =>
    simp only [InitSeq, Init_done h, ih, List.length_cons, List.replicate_succ]

/-- C5: a later call of `Init`, whatever the platform would return now, leaves
the state of the first call unchanged, the cached values and the log of platform
queries included, and returns the error the first call returned; the same holds
for every sequence of later calls. -/
theorem C5_init_idempotent (p1 p2 : Platform) (ps : List Platform) (s0 : State) :
    Init p2 (Init p1 s0).1 = ((Init p1 s0).1, (Init p1 s0).2) ∧
      (Init p2 (Init p1 s0).1).1.queries = (Init p1 s0).1.queries ∧
      InitSeq ps (Init p1 s0).1 =
        ((Init p1 s0).1, List.replicate ps.length (Init p1 s0).2) := by
  have h : (Init p1 s0).1.onceLer = true := by
    unfold Init
    by_cases hd : s0.onceLer = true <;> simp [hd]
  have h2 : (Init p1 s0).2 = (Init p1 s0).1.initErr := rfl
  rw [Init_done h, h2, InitSeq_done ps _ h]
  exact ⟨rfl, rfl, rfl⟩

/-- C6, counterexample: the info query fails with `timeout` and returns one
record alongside the error; after `Init` the model name and the clock speed of
that record are cached, not the empty string and 0. -/
theorem C6_counterexample :
    CPUModelName
        (Init ⟨4, none, [⟨"Example CPU", F64.fin 2400⟩], some "timeout"⟩ State.zero).1 =
        "Example CPU" ∧
      CPUModelName
        (Init ⟨4, none, [⟨"Example CPU", F64.fin 2400⟩], some "timeout"⟩ State.zero).1 ≠ "" ∧
      CPUMHzPerCore
        (Init ⟨4, none, [⟨"Example CPU", F64.fin 2400⟩], some "timeout"⟩ State.zero).1 ≠
        F64.fin 0 := by
  have h := Init_cons 4 none (some "timeout") ⟨"Example CPU", F64.fin 2400⟩ [] []
    State.zero rfl
  have hfl : ⌊(2400 : ℚ)⌋ = 2400 := by
    rw [Int.floor_eq_iff]
    constructor <;> norm_num
  refine ⟨h.1, ?_, ?_⟩
  · rw [h.1]
    decide
  · rw [h.2.1]
    simp only [F64.floor, hfl]
    norm_num

/-- C6, amended: whenever the info query fails, the error `Init` returns
contains the CPU-info failure; in a fresh process `CPUModelName()` is then the
empty string and `CPUMHzPerCore()` is 0 if the failing query returned no record,
and they are the model name and the floored clock speed of the first record if
it returned any (for a finite clock speed `q` the greatest integer not above
`q`). -/
theorem C6_info_failure (n : ℤ) (ce : Option GoError) (recs : List InfoStat) (e : GoError) :
    (∃ m, (Init ⟨n, ce, recs, some e⟩ State.zero).2 = some m ∧
        errorf infoLead e ∈ m.Errors) ∧
      (recs = [] →
        CPUModelName (Init ⟨n, ce, recs, some e⟩ State.zero).1 = "" ∧
        CPUMHzPerCore (Init ⟨n, ce, recs, some e⟩ State.zero).1 = F64.fin 0) ∧
      (∀ r rest, recs = r :: rest →
        CPUModelName (Init ⟨n, ce, recs, some e⟩ State.zero).1 = r.ModelName ∧
        CPUMHzPerCore (Init ⟨n, ce, recs, some e⟩ State.zero).1 = F64.floor r.Mhz) ∧
      (∀ (name : String) (q : ℚ) (rest : List InfoStat),
        recs = ⟨name, F64.fin q⟩ :: rest →
        CPUMHzPerCore (Init ⟨n, ce, recs, some e⟩ State.zero).1 =
          F64.fin ((⌊q⌋ : ℤ) : ℚ)) := by
  refine ⟨?_, ?_, ?_, ?_⟩
  · rw [Init_snd rfl, initBody_initErr]
    cases ce <;> simp [ErrorOrNil, multierrorAppend]
  · intro h
    subst h
    rw [Init_fst rfl]
    constructor
    · simp only [CPUModelName, initBody]
      split_ifs <;> rfl
    · simp only [CPUMHzPerCore, initBody_mhz, firstMhz, State.zero, F64.floor]
      simp
  · intro r rest h
    subst h
    exact ⟨(Init_cons n ce (some e) r rest [] State.zero rfl).1,
      (Init_cons n ce (some e) r rest [] State.zero rfl).2.1⟩
  · intro name q rest h
    subst h
    rw [(Init_cons n ce (some e) ⟨name, F64.fin q⟩ rest [] State.zero rfl).2.1]
    rfl

/-- C6, witness: the info query fails with `timeout` and returns no record;
the model name stays empty, the clock speed 0, and the returned error holds the
CPU-info failure. -/
theorem C6_witness :
    (∃ m, (Init ⟨4, none, [], some "timeout"⟩ State.zero).2 = some m ∧
        errorf infoLead "timeout" ∈ m.Errors) ∧
      CPUModelName (Init ⟨4, none, [], some "timeout"⟩ State.zero).1 = "" ∧
      CPUMHzPerCore (Init ⟨4, none, [], some "timeout"⟩ State.zero).1 = F64.fin 0 :=
  ⟨(C6_info_failure 4 none [] "timeout").1,
   ((C6_info_failure 4 none [] "timeout").2.1 rfl).1,
   ((C6_info_failure 4 none [] "timeout").2.1 rfl).2⟩

/-- C7, counterexample: the core-count query fails with `boom` and returns 4
alongside the error; after `Init` `CPUNumCores()` is 4, not 0. -/
theorem C7_counterexample :
    CPUNumCores (Init ⟨4, some "boom", [], none⟩ State.zero).1 = 4 ∧
      CPUNumCores (Init ⟨4, some "boom", [], none⟩ State.zero).1 ≠ 0 := by
  have h := Init_numCores 4 (some "boom") none [] State.zero rfl
  rw [h]
  exact ⟨rfl, by decide⟩

/-- C7, amended: whenever the core-count query fails, after `Init`
`CPUNumCores()` is the integer the failing query returned alongside its error:
0 when it returned 0, and not 0 otherwise. -/
theorem C7_counts_failure (n : ℤ) (e : GoError) (recs : List InfoStat) (ie : Option GoError)
    (s : State) (hs : s.onceLer = false) :
    CPUNumCores (Init ⟨n, some e, recs, ie⟩ s).1 = n :=
  Init_numCores n (some e) ie recs s hs

/-- C7, witness: a failing core-count query that returns 0 leaves
`CPUNumCores()` at 0. -/
theorem C7_witness :
    CPUNumCores (Init ⟨0, some "boom", [], none⟩ State.zero).1 = 0 :=
  C7_counts_failure 0 "boom" [] none State.zero rfl

/-- C8, counterexample: for the cause `x` the sub-error of a failed core-count
query reads `Unable to determine the number of CPU cores available: x`, and that
of a failed info query `Unable to obtain CPU information: x`; neither is the
text of the claim. -/
theorem C8_counterexample :
    (Init ⟨0, some "x", [], none⟩ State.zero).2 =
        some { Errors := ["Unable to determine the number of CPU cores available: x"] } ∧
      "Unable to determine the number of CPU cores available: x" ≠
        "unable to determine number of CPU cores: " ++ "x" ∧
      (Init ⟨0, none, [], some "x"⟩ State.zero).2 =
        some { Errors := ["Unable to obtain CPU information: x"] } ∧
      "Unable to obtain CPU information: x" ≠
        "unable to obtain CPU information: " ++ "x" := by
  refine ⟨?_, by decide, ?_, by decide⟩
  · rw [Init_snd rfl, initBody_initErr]
    simp [ErrorOrNil, multierrorAppend, errorf, countsLead]
  · rw [Init_snd rfl, initBody_initErr]
    simp [ErrorOrNil, multierrorAppend, errorf, infoLead]

/-- C8, amended: for every failure cause `c`, when the core-count query fails
with `c` the sub-error `Init` records has the text
`Unable to determine the number of CPU cores available: ` followed by the text
of `c`, and when the info query fails with `c` the sub-error has the text
`Unable to obtain CPU information: ` followed by the text of `c`. -/
theorem C8_error_texts (c : GoError) (n : ℤ) (recs : List InfoStat) (s : State)
    (hs : s.onceLer = false) :
    (Init ⟨n, some c, recs, none⟩ s).2 =
        some { Errors := ["Unable to determine the number of CPU cores available: " ++ c] } ∧
      (Init ⟨n, none, recs, some c⟩ s).2 =
        some { Errors := ["Unable to obtain CPU information: " ++ c] } ∧
      (Init ⟨n, some c, recs, some c⟩ s).2 =
        some { Errors := ["Unable to determine the number of CPU cores available: " ++ c,
          "Unable to obtain CPU information: " ++ c] } := by
  refine ⟨?_, ?_, ?_⟩ <;>
    · rw [Init_snd hs, initBody_initErr]
      simp [ErrorOrNil, multierrorAppend, errorf, countsLead, infoLead]

/-- C8, witness: the cause `timeout`. -/
theorem C8_witness :
    (Init ⟨0, none, [], some "timeout"⟩ State.zero).2 =
      some { Errors := ["Unable to obtain CPU information: " ++ "timeout"] } :=
  (C8_error_texts "timeout" 0 [] State.zero rfl).2.1

/-- C10: for core counts `0 <= n1 <= n2` (Go `int` values) and clock speeds
`0 <= m1 <= m2` of the first info record, the `TotalTicksAvailable()` that
`Init` caches for `(n1, m1)` is at most the one it caches for `(n2, m2)`. -/
theorem C10_total_ticks_monotone (n1 n2 : ℤ) (m1 m2 : ℚ) (name1 name2 : String)
    (rest1 rest2 : List InfoStat) (ce1 ie1 ce2 ie2 : Option GoError)
    (hn0 : 0 ≤ n1) (hn : n1 ≤ n2) (hmax : n2 ≤ maxInt) (hm0 : 0 ≤ m1) (hm : m1 ≤ m2) :
    F64.le
      (TotalTicksAvailable (Init ⟨n1, ce1, ⟨name1, F64.fin m1⟩ :: rest1, ie1⟩ State.zero).1)
      (TotalTicksAvailable (Init ⟨n2, ce2, ⟨name2, F64.fin m2⟩ :: rest2, ie2⟩ State.zero).1)
      = true := by
  rw [Init_ticks_cons _ _ _ _ _ _ _ rfl, Init_ticks_cons _ _ _ _ _ _ _ rfl]
  exact ticksOf_mono hn0 hn hmax hm0 hm

/-- C10, witness: 4 cores at 0 MHz against 8 cores at 2399.7 MHz. -/
theorem C10_witness :
    F64.le
      (TotalTicksAvailable (Init ⟨4, none, [⟨"Virtual CPU", F64.fin 0⟩], none⟩ State.zero).1)
      (TotalTicksAvailable
        (Init ⟨8, none, [⟨"Example CPU", F64.fin (23997 / 10)⟩], none⟩ State.zero).1)
      = true :=
  C10_total_ticks_monotone 4 8 0 (23997 / 10) "Virtual CPU" "Example CPU" [] [] none none
    none none (by norm_num) (by norm_num) (by simp [maxInt]) (by norm_num) (by norm_num)


end Stats
